import Mathlib

/-!
Verification development for the config-fs module (src/main.js): an in-memory
object graph exposed as a virtual file system.  The JavaScript source is
shallowly embedded: `Value` models the JS value universe reachable by the
module (plain objects are folders, arrays are lists, Buffers are binary
leaves, functions are dynamic handlers identified by an id and interpreted
through an environment), `Node` models a `Data` instance (a plain object with
fields `value`, `config`, and optionally `parent`, `path`, `key`), and each
method of the source is transcribed into a Lean function.  JavaScript
exceptions are modelled by `Res.thrown`; potential non-termination of the
recursive operations is modelled by fuel, with `Res.diverge` for exhaustion.

Deliberate model boundaries (none is exercised by a theorem below):
properties inherited from `Object.prototype` are not part of the `in`
operator model, the non-configurable `length` property of arrays is not a
key, byte writes into Buffers through ref-set are not tracked, and
`path.join` is modelled as plain separator concatenation without
normalisation.
-/

namespace Cfs

/-- Keys of the virtual file system: ordinary string keys, numeric keys
(array indices produced inside `Data.read`), and the three sentinel symbols
`cfs.index`, the GLOBAL sentinel and `cfs.parent` from src/main.js. -/
inductive Key : Type where
  | str (s : String)
  | num (n : Nat)
  | index
  | global
  | parent
deriving DecidableEq, Repr

/-- The JS values the module manipulates: `undefined`, `null`, booleans,
strings (`scalar`), Buffers (`binary`, content as a string), arrays
(`list`), plain objects (`folder`, an ordered association list), and
functions (`func`, identified by an id and interpreted by an environment). -/
inductive Value : Type where
  | undefV
  | vnull
  | bool (b : Bool)
  | scalar (s : String)
  | binary (s : String)
  | list (xs : List Value)
  | folder (es : List (Key × Value))
  | func (fid : Nat)
deriving Repr

/-- Outcome of running a piece of JS code: a value, a thrown exception, or
non-termination (fuel exhaustion). -/
inductive Res (α : Type) : Type where
  | ok (a : α)
  | thrown
  | diverge
deriving DecidableEq, Repr

/-- First association for a key, as JS own-property lookup on an object
literal (keys of real JS objects are unique, so first-match is faithful). -/
def lookupF : List (Key × Value) → Key → Option Value
  | [], _ => none
  | (k', v) :: t, k => if k' = k then some v else lookupF t k

/-- Canonical array-index reading of a string, as used by JS property access
on arrays: all digits and no leading zero (except "0" itself). -/
def canonNat? (s : String) : Option Nat :=
  if s = "" then none
  else if s.toList.all (fun c => c.isDigit) then
    if s = "0" ∨ s.toList.headD '0' ≠ '0' then s.toNat? else none
  else none

/-- Numeric index denoted by a key, if any. -/
def numIdx : Key → Option Nat
  | .num n => some n
  | .str s => canonNat? s
  | _ => none

/-- JS `typeof v === "object"` (true for `null`, objects, arrays, Buffers;
false for primitives, `undefined` and functions). -/
def typeofObject : Value → Bool
  | .vnull | .binary _ | .list _ | .folder _ => true
  | _ => false

/-- Membership of a constructor in `Data.nonFolderObjects = Set([Array,
Buffer, Config, Data])` from src/main.js line 98 (embedded `Config`/`Data`
values are outside the model). -/
def nonFolderCtor : Value → Bool
  | .binary _ | .list _ => true
  | _ => false

/-- JS `key in v` for the object-typed values the source applies it to:
own keys of plain objects, numeric indices of arrays and Buffers. -/
def hasProp (v : Value) (k : Key) : Bool :=
  match v with
  | .folder es => (lookupF es k).isSome
  | .list xs =>
    match numIdx k with
    | some i => decide (i < xs.length)
    | none => false
  | .binary s =>
    match numIdx k with
    | some i => decide (i < s.length)
    | none => false
  | _ => false

/-- JS property read `v[k]` for non-nullish `v`: own entry of a plain
object, array element, Buffer byte (a number, kept as its decimal string);
`undefined` in every other case. -/
def getOwnD (v : Value) (k : Key) : Value :=
  match v with
  | .folder es => (lookupF es k).getD .undefV
  | .list xs =>
    match numIdx k with
    | some i => xs.getD i .undefV
    | none => .undefV
  | .binary s =>
    match numIdx k with
    | some i =>
      if i < s.length then .scalar (toString (s.toList.getD i ' ').toNat)
      else .undefV
    | none => .undefV
  | _ => .undefV

/-- Nullish test, as used by the JS `??` operator: true exactly for `null`
and `undefined`. -/
def isNullishV : Value → Bool
  | .undefV => true
  | .vnull => true
  | _ => false

/-- Test for the `null` value alone. -/
def isNullV : Value → Bool
  | .vnull => true
  | _ => false

/-- JS property read `v[k]` as a computation: reading a property of `null`
or `undefined` throws a TypeError. -/
def getProp (v : Value) (k : Key) : Res Value :=
  if isNullishV v then .thrown else .ok (getOwnD v k)

mutual
/-- True when no `null` occurs anywhere inside the value. -/
def nullFreeB : Value → Bool
  | .vnull => false
  | .list xs => nullFreeL xs
  | .folder es => nullFreeE es
  | _ => true

/-- nullFreeB over the elements of an array. -/
def nullFreeL : List Value → Bool
  | [] => true
  | x :: t => nullFreeB x && nullFreeL t

/-- nullFreeB over the entries of a plain object. -/
def nullFreeE : List (Key × Value) → Bool
  | [] => true
  | (_, x) :: t => nullFreeB x && nullFreeE t
end

mutual
/-- JS string coercion `v + ""` for the non-nullish values that reach it in
`Data.read` (arrays join their elements with commas, nulls inside an array
join as empty, plain objects coerce to the object tag, functions to their
source text, abbreviated). -/
def jsToString : Value → String
  | .undefV => "undefined"
  | .vnull => "null"
  | .bool b => if b then "true" else "false"
  | .scalar s => s
  | .binary s => s
  | .list xs => String.intercalate "," (jsJoinParts xs)
  | .folder _ => "[object Object]"
  | .func _ => "function"

/-- Element strings of `Array.prototype.join`: null and undefined elements
become empty strings. -/
def jsJoinParts : List Value → List String
  | [] => []
  | x :: t =>
    (match x with
     | .vnull => ""
     | .undefV => ""
     | y => jsToString y) :: jsJoinParts t
end

/-- JS truthiness of a value. -/
def truthy : Value → Bool
  | .undefV | .vnull => false
  | .bool b => b
  | .scalar s => !s.isEmpty
  | _ => true

/-- A `Data` instance from src/main.js: a plain object carrying `value`, the
back-reference `config` (modelled by the root graph value `cfg`), and the
optional fields `parent`, `path` and `key` that the `item` method spreads
and overrides. -/
inductive Node : Type where
  | mk (value : Value) (cfg : Value) (parent : Option Node)
       (path : Option (List Key)) (key : Option Key)
deriving Repr

/-- Field accessor for the current value. -/
def Node.value : Node → Value
  | .mk v _ _ _ _ => v

/-- Field accessor for the owning configuration graph. -/
def Node.cfg : Node → Value
  | .mk _ g _ _ _ => g

/-- Field accessor for the optional parent node. -/
def Node.parent : Node → Option Node
  | .mk _ _ p _ _ => p

/-- Field accessor for the optional leftover path. -/
def Node.path : Node → Option (List Key)
  | .mk _ _ _ pa _ => pa

/-- Field accessor for the optional key. -/
def Node.key : Node → Option Key
  | .mk _ _ _ _ k => k

/-- The root `Data` built by the `Config` constructor (src/main.js line 49):
`Data.from({ value: data, config: this })`, with no parent, path or key. -/
def rootNode (g : Value) : Node := .mk g g none none none

/-- Structural surrogate for the identity test `this.config.data !== this`
in `Data.item`: the constructor-made root is the only resolution-reachable
node without `parent`, `path` and `key` fields (`item` always sets `key`). -/
def Node.isRootData (n : Node) : Bool :=
  n.parent.isNone && n.path.isNone && n.key.isNone

/-- Core of `Data.item` (src/main.js lines 131-148) after the GLOBAL
redirect: the PARENT branch returns `this.parent` (which is `undefined` on
the root), and otherwise the spread `{...this, ...branch, key}` is built.
Reading `constructor` of a `null` value, or applying `in` to it, throws. -/
def itemCore (n : Node) (k : Key) (fm : Bool) : Res (Option Node) :=
  if k = Key.parent then .ok n.parent
  else if isNullV n.value then .thrown
  else if !typeofObject n.value || (!fm && nonFolderCtor n.value) then
    .ok (some (.mk n.value n.cfg n.parent (some ((n.path.getD []) ++ [k])) (some k)))
  else if hasProp n.value k then
    .ok (some (.mk (getOwnD n.value k) n.cfg (some n) n.path (some k)))
  else if isNullishV (getOwnD n.value Key.index) then
    match getProp n.cfg Key.global with
    | .ok gv => .ok (some (.mk gv n.cfg (some n) (some [k]) (some k)))
    | _ => .thrown
  else .ok (some (.mk (getOwnD n.value Key.index) n.cfg (some n) (some [k]) (some k)))

/-- `Data.item(key, folder)` from src/main.js lines 131-148: a GLOBAL key on
a non-root node redirects to `this.config.data.item(global)`; otherwise the
core logic applies. -/
def Data.item (n : Node) (k : Key) (fm : Bool) : Res (Option Node) :=
  if k = Key.global ∧ n.isRootData = false then
    itemCore (rootNode n.cfg) Key.global false
  else itemCore n k fm

/-- One accumulation step of the `reduce` in `Data.get`: calling `.item` on
the `undefined` produced by a PARENT step at the root throws, and a thrown
exception aborts the whole reduction. -/
def stepAcc (acc : Res (Option Node)) (k : Key) (fm : Bool) : Res (Option Node) :=
  match acc with
  | .ok (some m) => Data.item m k fm
  | .ok none => .thrown
  | .thrown => .thrown
  | .diverge => .diverge

/-- Left fold of `stepAcc` over a key sequence, mirroring
`path.reduce((obj, k) => obj.item(k, folder), this)`. -/
def reduceSteps (acc : Res (Option Node)) (p : List Key) (fm : Bool) : Res (Option Node) :=
  match p with
  | [] => acc
  | k :: t => reduceSteps (stepAcc acc k fm) t fm

/-- `Data.get(path, folder)` from src/main.js line 123, on an
already-tokenized key sequence. -/
def Data.get (n : Node) (p : List Key) (fm : Bool) : Res (Option Node) :=
  reduceSteps (.ok (some n)) p fm

/-- The composite `get(p1).get(p2)`: a method call on the `undefined` or the
exception produced by the first `get` throws. -/
def chainGet (n : Node) (p1 p2 : List Key) (fm : Bool) : Res (Option Node) :=
  match Data.get n p1 fm with
  | .ok (some m) => Data.get m p2 fm
  | .ok none => .thrown
  | .thrown => .thrown
  | .diverge => .diverge

/-- Argument of `Config.split`: a raw path string or an already-tokenized
key sequence. -/
inductive PathArg : Type where
  | strP (s : String)
  | arrP (ks : List Key)

/-- Append a string to the last segment of the accumulator, as the loop
statement `out[out.length - 1] += ...` does. -/
def appendLast (out : List String) (s : String) : List String :=
  match out with
  | [] => [s]
  | [h] => [h ++ s]
  | h :: t => h :: appendLast t s

/-- The loop of `Config.split` (src/main.js lines 333-339): a separator
pushes a new empty segment; a backslash skips to the next character, which
is appended literally (reading one past the end yields JS `undefined`,
appended as the string "undefined"); any other character is appended. -/
def splitLoop : List Char → List String → List String
  | [], out => out
  | c :: rest, out =>
    if c = '/' then splitLoop rest (out ++ [""])
    else if c = '\\' then
      match rest with
      | [] => appendLast out "undefined"
      | d :: r2 => splitLoop r2 (appendLast out (String.singleton d))
    else splitLoop rest (appendLast out (String.singleton c))

/-- `Config.split(path)` from src/main.js lines 325-341: a falsy path gives
the empty sequence, an array passes through unchanged, a string is split by
the loop starting from one empty segment. -/
def Config.split (p : PathArg) : List Key :=
  match p with
  | .arrP ks => ks
  | .strP s => if s = "" then [] else (splitLoop s.toList [""]).map .str

/-- Prepend a string onto the first segment of a non-empty segmentation. -/
def consHead (s : String) : List String → List String
  | [] => [s]
  | h :: t => (s ++ h) :: t

/-- Modelled from the spec, section 4.1: split on the separator character
except where it is escaped by an immediately preceding escape character;
each escape character is consumed in pairs, and an escape directly before a
separator makes that separator literal.  Stated independently of the
source loop, for comparison with it. -/
def specSplit : List Char → List String
  | [] => [""]
  | c :: rest =>
    if c = '\\' then
      match rest with
      | [] => [""]
      | d :: r2 => consHead (String.singleton d) (specSplit r2)
    else if c = '/' then "" :: specSplit rest
    else consHead (String.singleton c) (specSplit rest)

/-- No escape character dangles at the end of the character list. -/
def noDangling : List Char → Bool
  | [] => true
  | c :: rest =>
    if c = '\\' then
      match rest with
      | [] => false
      | _ :: r2 => noDangling r2
    else noDangling rest

/-- Interpretation environment for function values (dynamic handlers): from
the handler id, the operation mode, the leftover path and the optional data
argument to the returned value.  Handlers are modelled as pure. -/
def HEnv : Type := Nat → String → Option (List Key) → Option Value → Value

mutual
/-- `Data.read(value, k)` from src/main.js lines 176-198, with `n` playing
`this` and `v` the `value` parameter.  Nullish values read as `null`;
functions are invoked; primitives are coerced to a Buffer; Buffers are
returned; arrays concatenate the reads of their elements; a plain object
re-resolves through `item(k, true).get(this.path)` when the array position
`k` is truthy, and through `item(index)` otherwise. -/
def readF (env : HEnv) (fuel : Nat) (n : Node) (v : Value) (k : Option Nat) :
    Res Value :=
  match fuel with
  | 0 => .diverge
  | Nat.succ f =>
    match v with
    | .vnull => .ok .vnull
    | .undefV => .ok .vnull
    | .func fid => .ok (env fid "read" n.path none)
    | .scalar s => .ok (.binary s)
    | .bool b => .ok (.binary (if b then "true" else "false"))
    | .binary s => .ok (.binary s)
    | .list xs =>
      match readParts env f n xs 0 with
      | .ok parts => .ok (.binary (String.join parts))
      | .thrown => .thrown
      | .diverge => .diverge
    | .folder _ =>
      match k with
      | some (Nat.succ i) =>
        match Data.item n (.num (Nat.succ i)) true with
        | .ok (some m) =>
          match Data.get m (n.path.getD []) false with
          | .ok (some m2) => readF env f m2 m2.value none
          | .ok none => .thrown
          | .thrown => .thrown
          | .diverge => .diverge
        | .ok none => .thrown
        | .thrown => .thrown
        | .diverge => .diverge
      | _ =>
        match Data.item n .index false with
        | .ok (some m) => readF env f m m.value none
        | .ok none => .thrown
        | .thrown => .thrown
        | .diverge => .diverge
termination_by (fuel, 0)

/-- The `Buffer.concat(value.map((x, i) => ...))` of the array case of
`Data.read`: each element is read at its position, a nullish result becomes
the empty string, a Buffer result keeps its content, and anything else is
string-coerced. -/
def readParts (env : HEnv) (fuel : Nat) (n : Node) (xs : List Value) (i : Nat) :
    Res (List String) :=
  match xs with
  | [] => .ok []
  | x :: t =>
    match readF env fuel n x (some i) with
    | .ok r =>
      let piece :=
        match r with
        | .vnull => ""
        | .undefV => ""
        | .binary s => s
        | y => jsToString y
      match readParts env fuel n t (i + 1) with
      | .ok parts => .ok (piece :: parts)
      | .thrown => .thrown
      | .diverge => .diverge
    | .thrown => .thrown
    | .diverge => .diverge
termination_by (fuel, xs.length + 1)
end

/-- Mutation performed at the node where `append` or `write` bottoms out. -/
inductive EffAct : Type where
  | refSet (v : Value)
  | push (d : Value)
  | handled (r : Value)

/-- Where an `append` or `write` took effect, and what it did. -/
structure Eff : Type where
  target : Node
  act : EffAct

/-- `Data.append(data)` from src/main.js lines 205-218: functions are
invoked; arrays push in place; a plain object forwards to its INDEX item;
evaluating `constructor` of a `null` value throws; every other case,
including Buffers (whose switch arm is a bare `break`), falls through to
`this.ref = [this.value, data]`. -/
def appendF (env : HEnv) (fuel : Nat) (n : Node) (d : Value) : Res Eff :=
  match fuel with
  | 0 => .diverge
  | Nat.succ f =>
    match n.value with
    | .func fid => .ok ⟨n, .handled (env fid "append" n.path (some d))⟩
    | .vnull => .thrown
    | .list _ => .ok ⟨n, .push d⟩
    | .folder _ =>
      match Data.item n .index false with
      | .ok (some m) => appendF env f m d
      | .ok none => .thrown
      | .thrown => .thrown
      | .diverge => .diverge
    | v => .ok ⟨n, .refSet (.list [v, d])⟩

/-- `Data.write(data)` from src/main.js lines 225-238: functions are
invoked; a plain object forwards to its INDEX item; `null` throws; Buffers
and arrays break out of the switch; every non-function non-folder case
falls through to `this.ref = data`. -/
def writeF (env : HEnv) (fuel : Nat) (n : Node) (d : Value) : Res Eff :=
  match fuel with
  | 0 => .diverge
  | Nat.succ f =>
    match n.value with
    | .func fid => .ok ⟨n, .handled (env fid "write" n.path (some d))⟩
    | .vnull => .thrown
    | .folder _ =>
      match Data.item n .index false with
      | .ok (some m) => writeF env f m d
      | .ok none => .thrown
      | .thrown => .thrown
      | .diverge => .diverge
    | _ => .ok ⟨n, .refSet d⟩

/-- Replace or insert an entry, as JS property assignment on an object
literal (existing key updated in place, new key appended). -/
def setEntry : List (Key × Value) → Key → Value → List (Key × Value)
  | [], k, v => [(k, v)]
  | (k', v') :: t, k, v =>
    if k' = k then (k, v) :: t else (k', v') :: setEntry t k v

/-- Array element assignment `xs[i] = v`: in range it replaces, past the
end it extends with holes (read back as `undefined`). -/
def setIdx (xs : List Value) (i : Nat) (v : Value) : List Value :=
  if i < xs.length then xs.set i v
  else xs ++ List.replicate (i - xs.length) .undefV ++ [v]

/-- JS property assignment `pv[k] = v` on the owner value, as performed by
the `ref` setter (byte writes into Buffers and named non-index properties of
arrays are outside the model and leave the value unchanged). -/
def setProp (pv : Value) (k : Key) (v : Value) : Value :=
  match pv with
  | .folder es => .folder (setEntry es k v)
  | .list xs =>
    match numIdx k with
    | some i => .list (setIdx xs i v)
    | none => .list xs
  | other => other

/-- Result of the `ref` setter: the new own value, and the owner value
after `this.parent.value[this.key] = v` when a parent exists. -/
structure RefOut : Type where
  newSelf : Value
  newParentValue : Option Value

/-- The `ref` setter from src/main.js lines 110-115 applied at node `n`
with value `v`. -/
def refApply (n : Node) (v : Value) : RefOut :=
  ⟨v,
   match n.parent with
   | some p => some (setProp p.value (n.key.getD (.str "undefined")) v)
   | none => none⟩

/-- JS `!this.path?.length`: true when the path field is absent or the
array is empty. -/
def jsPathEmpty (n : Node) : Bool :=
  match n.path with
  | none => true
  | some l => l.isEmpty

/-- Remove the first entry with the given key. -/
def eraseKey : List (Key × Value) → Key → List (Key × Value)
  | [], _ => []
  | (k', v') :: t, k => if k' = k then t else (k', v') :: eraseKey t k

/-- JS `delete pv[k]` in sloppy mode: the owner value afterwards, and the
boolean the operator returns.  Deleting from a plain object or an array
(hole semantics) reports true, also for absent keys; deleting an in-range
Buffer index reports false; deleting a property of `null` or `undefined`
throws. -/
def delProp (pv : Value) (k : Key) : Res (Value × Bool) :=
  match pv with
  | .vnull => .thrown
  | .undefV => .thrown
  | .folder es => .ok (.folder (eraseKey es k), true)
  | .list xs =>
    match numIdx k with
    | some i => .ok (.list (if i < xs.length then xs.set i .undefV else xs), true)
    | none => .ok (.list xs, true)
  | .binary s =>
    match numIdx k with
    | some i => .ok (.binary s, decide (¬ i < s.length))
    | none => .ok (.binary s, true)
  | other => .ok (other, true)

/-- Outcome of `Data.delete`: the returned boolean and the owner value
after the call (absent when the node has no parent). -/
structure DOut : Type where
  result : Bool
  parentValueAfter : Option Value

/-- The guard of `Data.delete`: `typeof this.value !== "function" ||
(this.value.call(this, "delete", this.path, ref, this) ?? true)` — a
non-function value always proceeds; a handler return of `undefined` or
`null` defaults to proceeding; otherwise its truthiness decides. -/
def delProceed (env : HEnv) (n : Node) (r2 : Bool) : Bool :=
  match n.value with
  | .func fid =>
    match env fid "delete" n.path (some (.bool r2)) with
    | .undefV => true
    | .vnull => true
    | hr => truthy hr
  | _ => true

/-- `Data.delete(ref, ignorePath)` from src/main.js lines 246-253: the real
flag is reduced by the leftover path, a function value is consulted (a
defined falsy return vetoes), and then the entry at this key is deleted
from the parent value; without a parent the method reports false. -/
def deleteF (env : HEnv) (n : Node) (r ip : Bool) : Res DOut :=
  if delProceed env n (r && (ip || jsPathEmpty n)) then
    match n.parent with
    | some p =>
      match delProp p.value (n.key.getD (.str "undefined")) with
      | .ok (pv2, b) => .ok ⟨b, some pv2⟩
      | _ => .thrown
    | none => .ok ⟨false, none⟩
  else .ok ⟨false, n.parent.map (fun p => p.value)⟩

/-- Synchronous real-filesystem primitives used by `Config.static`; each
may fail (missing path, I/O error). -/
structure FsWorld : Type where
  lstatIsDir : String → Except Unit Bool
  readdir : String → Except Unit (List String)
  readFile : String → Except Unit String
  appendFile : String → Option Value → Except Unit Unit
  writeFile : String → Option Value → Except Unit Unit
  unlink : String → Except Unit Unit

/-- String form of a key for `path.join`, which accepts only strings and
throws a TypeError on numbers or symbols. -/
def keyStr? : Key → Option String
  | .str s => some s
  | _ => none

/-- `join(temp, ...args)` modelled as separator concatenation (path
normalisation is outside the model); a non-string segment fails like the
TypeError `path.join` raises. -/
def joinP (base : String) (args : List Key) : Except Unit String :=
  match args with
  | [] => .ok base
  | k :: t =>
    match keyStr? k with
    | some s => joinP (base ++ "/" ++ s) t
    | none => .error ()

/-- The target path of the `Config.static` handler:
`isFolder ? join(temp, ...args) : temp`. -/
def staticBase (isFolder : Bool) (temp : String) (args : List Key) :
    Except Unit String :=
  if isFolder then joinP temp args else .ok temp

/-- The stat step of the `Config.static` handler: for the modes other than
`list` and `delete`, `fs.lstatSync(file).isDirectory()` is consulted (and
may fail on a missing path), and a directory target gets the index file
name appended. -/
def staticStat (w : FsWorld) (mode idxName f0 : String) : Except Unit String :=
  if mode = "list" ∨ mode = "delete" then .ok f0
  else
    match w.lstatIsDir f0 with
    | .error e => .error e
    | .ok d => .ok (if d then f0 ++ "/" ++ idxName else f0)

/-- The switch of the `Config.static` handler: `delete` touches the file
only when its data flag is truthy, and an unknown mode reads like
`read`. -/
def staticDispatch (w : FsWorld) (mode file : String) (data : Option Value) :
    Except Unit Value :=
  if mode = "list" then
    (w.readdir file).map (fun names => .list (names.map .scalar))
  else if mode = "append" then
    (w.appendFile file data).map (fun _ => .undefV)
  else if mode = "write" then
    (w.writeFile file data).map (fun _ => .undefV)
  else if mode = "delete" then
    if truthy (data.getD .undefV) then (w.unlink file).map (fun _ => .undefV)
    else .ok (data.getD .undefV)
  else
    (w.readFile file).map .binary

/-- The try block of the handler returned by `Config.static` (src/main.js
lines 284-299): build the target path, stat it for the non-list non-delete
modes, append the extension, and dispatch on the mode. -/
def staticTry (w : FsWorld) (isFolder : Bool) (idxName ext temp : String)
    (mode : String) (args : List Key) (data : Option Value) :
    Except Unit Value :=
  match staticBase isFolder temp args with
  | .error e => .error e
  | .ok f0 =>
    match staticStat w mode idxName f0 with
    | .error e => .error e
    | .ok f1 => staticDispatch w mode (f1 ++ ext) data

/-- The catch branch of the `Config.static` handler:
`this.item(global).read()` on the node the handler runs at. -/
def globalRead (env : HEnv) (fuel : Nat) (node : Node) : Res Value :=
  match Data.item node .global false with
  | .ok (some m) => readF env fuel m m.value none
  | .ok none => .thrown
  | .thrown => .thrown
  | .diverge => .diverge

/-- The handler returned by `Config.static` (src/main.js lines 279-305):
run the try block and, on any failure, degrade to reading the GLOBAL item
of the current node.  `Config.reference(path, ctx)` builds the same handler
with `isFolder = false`. -/
def staticHandler (w : FsWorld) (env : HEnv) (fuel : Nat) (isFolder : Bool)
    (idxName ext temp : String) (node : Node) (mode : String)
    (args : List Key) (data : Option Value) : Res Value :=
  match staticTry w isFolder idxName ext temp mode args data with
  | .ok v => .ok v
  | .error _ => globalRead env fuel node

/-- Value produced by the fallback branch of `Data.item` for a key absent
from the folder `es`: the wiring `this.value[index] ?? this.config.data.value[global]`
takes the INDEX entry when it is present and not nullish, and the GLOBAL
property of the root value otherwise. -/
def fbVal (es : List (Key × Value)) (g : Value) : Value :=
  if isNullishV (getOwnD (.folder es) Key.index) then getOwnD g Key.global
  else getOwnD (.folder es) Key.index

/-- Well-formedness of a node chain: every node in the parent chain carries
the same configuration back-reference.  Resolution-produced chains satisfy
it by construction. -/
def cfgOk : Node → Prop
  | .mk _ _ none _ _ => True
  | .mk _ g (some p) _ _ => p.cfg = g ∧ cfgOk p

/-- A handler environment returning `undefined` for every invocation. -/
def envU : HEnv := fun _ _ _ _ => .undefV

/-- A filesystem in which every primitive fails. -/
def wFail : FsWorld :=
  ⟨fun _ => .error (), fun _ => .error (), fun _ => .error (),
   fun _ _ => .error (), fun _ _ => .error (), fun _ => .error ()⟩

/-- Concrete graph with a null entry, for the resolution-safety
counterexample. -/
def gNull : Value := .folder [(.str "a", .vnull)]

/-- Concrete graph whose root GLOBAL entry is a folder, so that a fallback
node has a folder value and a non-empty leftover path. -/
def gFall : Value := .folder [(Key.global, .folder [(.str "b", .scalar "w")])]

/-- The node `get(root, ["x"])` produces on `gFall`: the GLOBAL folder as
value, with leftover path `["x"]`. -/
def nFall : Node :=
  .mk (.folder [(.str "b", .scalar "w")]) gFall (some (rootNode gFall))
    (some [.str "x"]) (some (.str "x"))

/-- Concrete graph holding one Buffer leaf. -/
def gBin : Value := .folder [(.str "b", .binary "hi")]

/-- The node `get(root, ["b"])` produces on `gBin`. -/
def nBin : Node := .mk (.binary "hi") gBin (some (rootNode gBin)) none (some (.str "b"))

/-- A plain folder sitting at position 0 of an array. -/
def c5Folder : Value := .folder [(.str "x", .scalar "hi")]

/-- Array whose element 0 is a plain folder: the failing input of the
array-position-zero read. -/
def c5List : Value := .list [c5Folder]

/-- Concrete graph with a scalar GLOBAL entry, for the delegation-fallback
witness. -/
def gGlob : Value := .folder [(Key.global, .scalar "NF")]

@[simp] theorem Node.value_mk (v g : Value) (p : Option Node)
    (pa : Option (List Key)) (k : Option Key) :
    (Node.mk v g p pa k).value = v := rfl

@[simp] theorem Node.cfg_mk (v g : Value) (p : Option Node)
    (pa : Option (List Key)) (k : Option Key) :
    (Node.mk v g p pa k).cfg = g := rfl

@[simp] theorem Node.parent_mk (v g : Value) (p : Option Node)
    (pa : Option (List Key)) (k : Option Key) :
    (Node.mk v g p pa k).parent = p := rfl

@[simp] theorem Node.path_mk (v g : Value) (p : Option Node)
    (pa : Option (List Key)) (k : Option Key) :
    (Node.mk v g p pa k).path = pa := rfl

@[simp] theorem Node.key_mk (v g : Value) (p : Option Node)
    (pa : Option (List Key)) (k : Option Key) :
    (Node.mk v g p pa k).key = k := rfl

theorem reduceSteps_append (p1 p2 : List Key) (acc : Res (Option Node)) (fm : Bool) :
    reduceSteps acc (p1 ++ p2) fm = reduceSteps (reduceSteps acc p1 fm) p2 fm := by
  induction p1 generalizing acc with
  | nil => rfl
  | cons k t ih => simp [reduceSteps, ih]

/-- C6, counterexample: with p1 = [PARENT] from the absolute root and
p2 = [], the composite `get(p1).get(p2)` throws (a method call on the
`undefined` that the PARENT step produced), while `get(p1 ++ p2)` yields
that `undefined` without throwing — so the unrestricted associativity
claim fails at this input. -/
theorem c6_counterexample :
    chainGet (rootNode (.folder [])) [Key.parent] [] false = .thrown ∧
    Data.get (rootNode (.folder [])) ([Key.parent] ++ []) false = .ok none ∧
    (Res.thrown : Res (Option Node)) ≠ .ok none :=
  ⟨rfl, rfl, fun h => Res.noConfusion h⟩

/-- C6 (amended): path resolution is associative over concatenation
whenever the first segment resolves to a node: if `get(p1)` yields node `m`
then `get(p1).get(p2)` equals `get(p1 ++ p2)`; and resolving the empty
sequence returns the node unchanged.  (When `get(p1)` yields the
`undefined` of a PARENT step at the root and p2 is empty, the two sides
differ: the composite throws, the concatenation yields `undefined`.) -/
theorem c6_get_associative :
    (∀ (n : Node) (p1 p2 : List Key) (fm : Bool) (m : Node),
       Data.get n p1 fm = .ok (some m) →
       chainGet n p1 p2 fm = Data.get n (p1 ++ p2) fm) ∧
    (∀ (n : Node) (fm : Bool), Data.get n [] fm = .ok (some n)) := by
  constructor
  · intro n p1 p2 fm m h
    have h1 : chainGet n p1 p2 fm = Data.get m p2 fm := by
      unfold chainGet
      rw [h]
    have h2 : Data.get n (p1 ++ p2) fm = Data.get m p2 fm := by
      unfold Data.get at h ⊢
      rw [reduceSteps_append, h]
    rw [h1, h2]
  · intro n fm
    rfl

/-- C6, witness: the associativity theorem applied to a concrete resolved
prefix. -/
theorem c6_witness :
    chainGet (rootNode gBin) [Key.str "b"] [] false =
      Data.get (rootNode gBin) ([Key.str "b"] ++ []) false :=
  c6_get_associative.1 (rootNode gBin) [Key.str "b"] [] false nBin rfl

/-- C3, counterexample: resolving PARENT on the absolute root does not fail
with any error — `Data.item` returns the `undefined` value of the missing
`parent` field (no NoParentError exists anywhere in src/main.js). -/
theorem c3_counterexample :
    Data.item (rootNode (.folder [])) Key.parent false = .ok none ∧
    (Res.ok (none : Option Node)) ≠ .thrown :=
  ⟨rfl, fun h => Res.noConfusion h⟩

/-- C3 (amended): resolving the PARENT sentinel on a node that has an owner
returns that owner; on the absolute root it returns `undefined` (the root
has no `parent` field), not an error. -/
theorem c3_parent_step :
    (∀ (n : Node) (p : Node) (fm : Bool), n.parent = some p →
       Data.item n Key.parent fm = .ok (some p)) ∧
    (∀ (g : Value) (fm : Bool), Data.item (rootNode g) Key.parent fm = .ok none) := by
  constructor
  · intro n p fm h
    unfold Data.item itemCore
    simp [h]
  · intro g fm
    rfl

/-- C3, witness: the PARENT step applied to a concretely resolved child. -/
theorem c3_witness : Data.item nBin Key.parent false = .ok (some (rootNode gBin)) :=
  c3_parent_step.1 nBin (rootNode gBin) false rfl

/-- C4, counterexample: the node reached by `get(root, ["x"])` on `gFall`
has a folder value (the root GLOBAL entry) and leftover path `["x"]`;
stepping it with the existing key "b" produces a node whose leftover path
is the inherited `["x"]`, not the empty path the claim predicts. -/
theorem c4_counterexample :
    Data.get (rootNode gFall) [.str "x"] false = .ok (some nFall) ∧
    Data.item nFall (.str "b") false =
      .ok (some (.mk (.scalar "w") gFall (some nFall) (some [.str "x"]) (some (.str "b")))) ∧
    (some [Key.str "x"] : Option (List Key)) ≠ some [] ∧
    (some [Key.str "x"] : Option (List Key)) ≠ none := by
  refine ⟨rfl, rfl, by simp, by simp⟩

/-- C4 (amended): stepping a folder-valued node with a non-sentinel key
that exists in the folder produces a node with that entry as value, the
stepped-from node as owner, the given key — and the leftover path inherited
unchanged from the stepped-from node (the spread `{...this}` keeps `path`),
so it is empty exactly when the stepped-from node had none. -/
theorem c4_folder_step (n : Node) (es : List (Key × Value)) (k : Key) (v : Value)
    (fm : Bool) (hv : n.value = .folder es) (hl : lookupF es k = some v)
    (hg : k ≠ Key.global) (hp : k ≠ Key.parent) :
    Data.item n k fm = .ok (some (.mk v n.cfg (some n) n.path (some k))) := by
  unfold Data.item itemCore
  simp [hg, hp, hv, isNullV, typeofObject, nonFolderCtor, hasProp, getOwnD, hl]

/-- C4, witness: the folder step applied to the root of `gBin` at its key
"b". -/
theorem c4_witness :
    Data.item (rootNode gBin) (.str "b") false =
      .ok (some (.mk (.binary "hi") gBin (some (rootNode gBin)) none (some (.str "b")))) :=
  c4_folder_step (rootNode gBin) [(.str "b", .binary "hi")] (.str "b") (.binary "hi")
    false rfl rfl (by decide) (by decide)

/-- C2, counterexample: on the Buffer node resolved at "b", `append("x")`
is not a no-op — the `case Buffer: break;` arm falls through to
`this.ref = [this.value, data]`, so the node value becomes the two-element
array and the owner entry is rewritten to it. -/
theorem c2_counterexample :
    Data.get (rootNode gBin) [.str "b"] false = .ok (some nBin) ∧
    appendF envU 1 nBin (.scalar "x") =
      .ok ⟨nBin, .refSet (.list [.binary "hi", .scalar "x"])⟩ ∧
    (refApply nBin (.list [.binary "hi", .scalar "x"])).newParentValue =
      some (.folder [(.str "b", .list [.binary "hi", .scalar "x"])]) ∧
    (Value.list [.binary "hi", .scalar "x"]) ≠ .binary "hi" := by
  refine ⟨rfl, rfl, rfl, by simp⟩

/-- C2 (amended): on a Binary node, `append(data)` replaces the value with
the array `[oldValue, data]` via ref-set (the same fall-through as for
scalars), and `write(data)` replaces the value with `data` via ref-set;
ref-set updates both the node value and the owning folder entry at the
node key. -/
theorem c2_binary_append_write :
    ∀ (env : HEnv) (fuel : Nat) (n : Node) (s : String) (d : Value),
      n.value = .binary s →
      appendF env (fuel + 1) n d = .ok ⟨n, .refSet (.list [.binary s, d])⟩ ∧
      writeF env (fuel + 1) n d = .ok ⟨n, .refSet d⟩ ∧
      (∀ (p : Node) (es : List (Key × Value)) (k : Key),
        n.parent = some p → p.value = .folder es → n.key = some k →
        refApply n (.list [.binary s, d]) =
          ⟨.list [.binary s, d], some (.folder (setEntry es k (.list [.binary s, d])))⟩) := by
  intro env fuel n s d hv
  refine ⟨?_, ?_, ?_⟩
  · unfold appendF
    simp [hv]
  · unfold writeF
    simp [hv]
  · intro p es k hp hpv hk
    unfold refApply setProp
    rw [hp, hk]
    simp [hpv]

/-- C2, witness: the amended behavior evaluated on the concrete Buffer
node of `gBin`. -/
theorem c2_witness :
    appendF envU 3 nBin (.scalar "y") =
      .ok ⟨nBin, .refSet (.list [.binary "hi", .scalar "y"])⟩ ∧
    writeF envU 3 nBin (.scalar "y") = .ok ⟨nBin, .refSet (.scalar "y")⟩ := by
  have h := c2_binary_append_write envU 2 nBin "hi" (.scalar "y") rfl
  exact ⟨h.1, h.2.1⟩

theorem consHead_ne_nil (s : String) (l : List String) : consHead s l ≠ [] := by
  cases l <;> simp [consHead]

theorem consHead_consHead (a b : String) (l : List String) :
    consHead a (consHead b l) = consHead (a ++ b) l := by
  cases l <;> simp [consHead, String.append_assoc]

theorem consHead_empty (l : List String) (h : l ≠ []) : consHead "" l = l := by
  cases l with
  | nil => exact absurd rfl h
  | cons x t => simp [consHead]

theorem specSplit_ne_nil : ∀ cs : List Char, specSplit cs ≠ []
  | [] => by simp [specSplit]
  | c :: rest => by
    unfold specSplit
    by_cases h1 : c = '\\'
    · cases rest with
      | nil => simp [h1]
      | cons d r2 => simpa [h1] using consHead_ne_nil (String.singleton d) (specSplit r2)
    · by_cases h2 : c = '/'
      · simp [h1, h2]
      · simpa [h1, h2] using consHead_ne_nil (String.singleton c) (specSplit rest)

theorem appendLast_concat (pre : List String) (cur s : String) :
    appendLast (pre ++ [cur]) s = pre ++ [cur ++ s] := by
  induction pre with
  | nil => rfl
  | cons h t ih =>
    rcases ht : t ++ [cur] with _ | ⟨x, t2⟩
    · exact absurd ht (by simp)
    · have step : appendLast (h :: x :: t2) s = h :: appendLast (x :: t2) s := rfl
      rw [List.cons_append, ht, step, ← ht, ih]
      rfl

theorem noDangling_slash (rest : List Char) :
    noDangling ('/' :: rest) = noDangling rest := by
  rw [noDangling.eq_def]
  simp

theorem noDangling_esc (d : Char) (r2 : List Char) :
    noDangling ('\\' :: d :: r2) = noDangling r2 := by
  rw [noDangling.eq_def]
  simp

theorem noDangling_esc_nil : noDangling ['\\'] = false := by
  rw [noDangling.eq_def]
  simp

theorem noDangling_other (c : Char) (rest : List Char) (h1 : ¬c = '\\') :
    noDangling (c :: rest) = noDangling rest := by
  rw [noDangling.eq_def]
  simp [h1]

theorem splitLoop_slash (rest : List Char) (out : List String) :
    splitLoop ('/' :: rest) out = splitLoop rest (out ++ [""]) := by
  rw [splitLoop.eq_def]
  simp

theorem splitLoop_esc (d : Char) (r2 : List Char) (out : List String) :
    splitLoop ('\\' :: d :: r2) out =
      splitLoop r2 (appendLast out (String.singleton d)) := by
  rw [splitLoop.eq_def]
  simp

theorem splitLoop_other (c : Char) (rest : List Char) (out : List String)
    (h1 : ¬c = '\\') (h2 : ¬c = '/') :
    splitLoop (c :: rest) out =
      splitLoop rest (appendLast out (String.singleton c)) := by
  rw [splitLoop.eq_def]
  simp [h1, h2]

theorem specSplit_slash (rest : List Char) :
    specSplit ('/' :: rest) = "" :: specSplit rest := by
  rw [specSplit.eq_def]
  simp

theorem specSplit_esc (d : Char) (r2 : List Char) :
    specSplit ('\\' :: d :: r2) = consHead (String.singleton d) (specSplit r2) := by
  rw [specSplit.eq_def]
  simp

theorem specSplit_other (c : Char) (rest : List Char)
    (h1 : ¬c = '\\') (h2 : ¬c = '/') :
    specSplit (c :: rest) = consHead (String.singleton c) (specSplit rest) := by
  rw [specSplit.eq_def]
  simp [h1, h2]

theorem splitLoop_spec : ∀ (cs : List Char) (pre : List String) (cur : String),
    noDangling cs = true →
    splitLoop cs (pre ++ [cur]) = pre ++ consHead cur (specSplit cs)
  | [], pre, cur, _ => by
    simp [splitLoop, specSplit, consHead]
  | c :: rest, pre, cur, h => by
    by_cases h1 : c = '\\'
    · subst h1
      cases rest with
      | nil =>
        rw [noDangling_esc_nil] at h
        exact Bool.noConfusion h
      | cons d r2 =>
        have hd : noDangling r2 = true := by rwa [noDangling_esc] at h
        rw [splitLoop_esc, appendLast_concat,
          splitLoop_spec r2 pre (cur ++ String.singleton d) hd,
          specSplit_esc, consHead_consHead]
    · by_cases h2 : c = '/'
      · subst h2
        have hr : noDangling rest = true := by rwa [noDangling_slash] at h
        rw [splitLoop_slash, splitLoop_spec rest (pre ++ [cur]) "" hr,
          specSplit_slash]
        rcases hs : specSplit rest with _ | ⟨x, t⟩
        · exact absurd hs (specSplit_ne_nil rest)
        · simp [consHead]
      · have hr : noDangling rest = true := by rwa [noDangling_other c rest h1] at h
        rw [splitLoop_other c rest _ h1 h2, appendLast_concat,
          splitLoop_spec rest pre (cur ++ String.singleton c) hr,
          specSplit_other c rest h1 h2, consHead_consHead]

/-- C7: the tokenizer maps the empty string to the empty sequence, passes
arrays through unchanged, splits "a\/b" into the single key "a/b" and
"a/b" into the keys "a","b"; and on every string without a dangling escape
the source loop agrees with the splitting rule stated by the spec (split on
unescaped separators, escapes consumed in pairs, an escaped separator kept
literally), here `specSplit`. -/
theorem c7_tokenizer :
    Config.split (.strP "") = [] ∧
    (∀ ks, Config.split (.arrP ks) = ks) ∧
    Config.split (.strP "a\\/b") = [.str "a/b"] ∧
    Config.split (.strP "a/b") = [.str "a", .str "b"] ∧
    (∀ s : String, noDangling s.toList = true →
       splitLoop s.toList [""] = specSplit s.toList) := by
  refine ⟨rfl, fun ks => rfl, rfl, rfl, ?_⟩
  intro s h
  have h2 := splitLoop_spec s.toList [] "" h
  simp only [List.nil_append] at h2
  rw [h2, consHead_empty _ (specSplit_ne_nil _)]

/-- C7, witness: the loop-spec agreement evaluated on a concrete escaped
string. -/
theorem c7_witness :
    noDangling ("x\\/y".toList) = true ∧
    splitLoop ("x\\/y".toList) [""] = specSplit ("x\\/y".toList) :=
  ⟨rfl, c7_tokenizer.2.2.2.2 "x\\/y" rfl⟩

theorem cfgOk_none (v g : Value) (pa : Option (List Key)) (k : Option Key) :
    cfgOk (.mk v g none pa k) := by
  rw [cfgOk.eq_def]
  simp

theorem cfgOk_some (v g : Value) (p : Node) (pa : Option (List Key)) (k : Option Key) :
    cfgOk (.mk v g (some p) pa k) ↔ (p.cfg = g ∧ cfgOk p) := by
  rw [cfgOk.eq_def]

theorem cfgOk_parent (n p : Node) (hok : cfgOk n) (hp : n.parent = some p) :
    p.cfg = n.cfg ∧ cfgOk p := by
  cases n with
  | mk v g op pa k =>
    cases op with
    | none => simp at hp
    | some q =>
      have hq : q = p := by simpa using hp
      subst hq
      simpa using (cfgOk_some v g q pa k).mp hok

theorem nodeFrom_cfg (n : Node) (v2 : Value) (pa : Option (List Key))
    (k : Option Key) (hok : cfgOk n) : cfgOk (.mk v2 n.cfg n.parent pa k) := by
  cases hpar : n.parent with
  | none => exact cfgOk_none v2 n.cfg pa k
  | some q =>
    have hq := cfgOk_parent n q hok hpar
    exact (cfgOk_some v2 n.cfg q pa k).mpr ⟨hq.1, hq.2⟩

theorem nodeChild_cfg (n : Node) (v2 : Value) (pa : Option (List Key))
    (k : Option Key) (hok : cfgOk n) : cfgOk (.mk v2 n.cfg (some n) pa k) :=
  (cfgOk_some v2 n.cfg n pa k).mpr ⟨rfl, hok⟩

theorem itemCore_cfg (n : Node) (k : Key) (fm : Bool) (m : Node)
    (hok : cfgOk n) (h : itemCore n k fm = .ok (some m)) :
    m.cfg = n.cfg ∧ cfgOk m := by
  unfold itemCore at h
  split at h
  · cases hpar : n.parent with
    | none => rw [hpar] at h; simp at h
    | some q =>
      rw [hpar] at h
      simp only [Res.ok.injEq, Option.some.injEq] at h
      subst h
      exact cfgOk_parent n _ hok hpar
  · split at h
    · simp at h
    · split at h
      · simp only [Res.ok.injEq, Option.some.injEq] at h
        subst h
        exact ⟨rfl, nodeFrom_cfg n _ _ _ hok⟩
      · split at h
        · simp only [Res.ok.injEq, Option.some.injEq] at h
          subst h
          exact ⟨rfl, nodeChild_cfg n _ _ _ hok⟩
        · split at h
          · split at h
            · simp only [Res.ok.injEq, Option.some.injEq] at h
              subst h
              exact ⟨rfl, nodeChild_cfg n _ _ _ hok⟩
            · simp at h
          · simp only [Res.ok.injEq, Option.some.injEq] at h
            subst h
            exact ⟨rfl, nodeChild_cfg n _ _ _ hok⟩

/-- C10: on a chain whose parent links all carry the same configuration
back-reference, every node produced by a resolution step (ordinary key,
INDEX/GLOBAL fallback, PARENT, or leftover accumulation) carries the same
configuration as the node it was produced from, and the chain property is
preserved — resolution never rebinds a node chain to a different root. -/
theorem c10_cfg_preserved :
    ∀ (n : Node) (k : Key) (fm : Bool) (m : Node),
      cfgOk n → Data.item n k fm = .ok (some m) → m.cfg = n.cfg ∧ cfgOk m := by
  intro n k fm m hok h
  unfold Data.item at h
  split at h
  · have h2 := itemCore_cfg (rootNode n.cfg) Key.global false m
      (cfgOk_none n.cfg n.cfg none none) h
    exact ⟨h2.1, h2.2⟩
  · exact itemCore_cfg n k fm m hok h

/-- C10, witness: the invariant applied to the concrete step from the root
of `gBin` to its entry "b". -/
theorem c10_witness : nBin.cfg = (rootNode gBin).cfg ∧ cfgOk nBin :=
  c10_cfg_preserved (rootNode gBin) (.str "b") false nBin
    (cfgOk_none gBin gBin none none) rfl

theorem eraseKey_absent (es : List (Key × Value)) (k : Key)
    (h : lookupF es k = none) : eraseKey es k = es := by
  induction es with
  | nil => rfl
  | cons e t ih =>
    obtain ⟨k', v'⟩ := e
    by_cases hk : k' = k
    · simp [lookupF, hk] at h
    · simp only [lookupF, if_neg hk] at h
      simp [eraseKey, hk, ih h]

theorem vetoOf (x : Value)
    (hx : (match x with | .undefV => true | .vnull => true | hr => truthy hr) = false) :
    x ≠ .undefV ∧ x ≠ .vnull ∧ truthy x = false := by
  cases x <;> simp_all

/-- C9: deleting a node that was resolved through a key absent from its
owning folder reports success and leaves the owning folder's entries
unchanged (JS `delete` of an absent key returns true); on a folder-owned
node the false result arises only from a dynamic-handler veto, and a node
without an owner (the absolute root) always reports false. -/
theorem c9_delete_reports :
    (∀ (env : HEnv) (n p : Node) (es : List (Key × Value)) (k : Key) (r ip : Bool),
       n.parent = some p → p.value = .folder es → n.key = some k →
       lookupF es k = none → (∀ fid, n.value ≠ .func fid) →
       deleteF env n r ip = .ok ⟨true, some (.folder es)⟩) ∧
    (∀ (env : HEnv) (n : Node) (r ip : Bool), n.parent = none →
       deleteF env n r ip = .ok ⟨false, none⟩) ∧
    (∀ (env : HEnv) (n p : Node) (es : List (Key × Value)) (r ip : Bool) (out : DOut),
       n.parent = some p → p.value = .folder es →
       deleteF env n r ip = .ok out → out.result = false →
       ∃ fid, n.value = .func fid ∧
         (env fid "delete" n.path (some (.bool (r && (ip || jsPathEmpty n)))) ≠ .undefV ∧
          env fid "delete" n.path (some (.bool (r && (ip || jsPathEmpty n)))) ≠ .vnull ∧
          truthy (env fid "delete" n.path (some (.bool (r && (ip || jsPathEmpty n))))) = false)) := by
  refine ⟨?_, ?_, ?_⟩
  · intro env n p es k r ip hp hpv hk hl hfn
    have hpr : delProceed env n (r && (ip || jsPathEmpty n)) = true := by
      unfold delProceed
      cases hv : n.value <;> try rfl
      exact absurd hv (hfn _)
    unfold deleteF
    rw [hpr]
    simp only [if_true, hp, hk]
    simp [delProp, hpv, eraseKey_absent es k hl]
  · intro env n r ip hp
    unfold deleteF
    rw [hp]
    split
    · rfl
    · simp
  · intro env n p es r ip out hp hpv h hres
    unfold deleteF at h
    split at h
    · simp only [hp, hpv, delProp] at h
      simp only [Res.ok.injEq] at h
      rw [← h] at hres
      simp at hres
    · rename_i hfalse
      cases hv : n.value with
      | func fid =>
        unfold delProceed at hfalse
        rw [hv] at hfalse
        refine ⟨fid, rfl, vetoOf _ ?_⟩
        exact Bool.eq_false_iff.mpr hfalse
      | undefV =>
        unfold delProceed at hfalse
        rw [hv] at hfalse
        exact absurd rfl hfalse
      | vnull =>
        unfold delProceed at hfalse
        rw [hv] at hfalse
        exact absurd rfl hfalse
      | bool b =>
        unfold delProceed at hfalse
        rw [hv] at hfalse
        exact absurd rfl hfalse
      | scalar s =>
        unfold delProceed at hfalse
        rw [hv] at hfalse
        exact absurd rfl hfalse
      | binary s =>
        unfold delProceed at hfalse
        rw [hv] at hfalse
        exact absurd rfl hfalse
      | list xs =>
        unfold delProceed at hfalse
        rw [hv] at hfalse
        exact absurd rfl hfalse
      | folder es2 =>
        unfold delProceed at hfalse
        rw [hv] at hfalse
        exact absurd rfl hfalse

/-- C9, witness: deleting the concretely resolved fallback node of `gFall`
reports success with the root folder unchanged. -/
theorem c9_witness :
    deleteF envU nFall true false =
      .ok ⟨true, some (.folder [(Key.global, .folder [(.str "b", .scalar "w")])])⟩ :=
  c9_delete_reports.1 envU nFall (rootNode gFall)
    [(Key.global, .folder [(.str "b", .scalar "w")])] (.str "x") true false
    rfl rfl rfl rfl (by intro fid hh; simp [nFall] at hh)

theorem lookupF_nullFree (es : List (Key × Value)) (k : Key) (v : Value)
    (he : nullFreeE es = true) (h : lookupF es k = some v) : nullFreeB v = true := by
  induction es with
  | nil => simp [lookupF] at h
  | cons e t ih =>
    obtain ⟨k', v'⟩ := e
    simp only [nullFreeE, Bool.and_eq_true] at he
    by_cases hk : k' = k
    · rw [lookupF, if_pos hk] at h
      simp only [Option.some.injEq] at h
      exact h ▸ he.1
    · rw [lookupF, if_neg hk] at h
      exact ih he.2 h

theorem getD_nullFree (xs : List Value) (i : Nat) (hl : nullFreeL xs = true) :
    nullFreeB (xs.getD i .undefV) = true := by
  induction xs generalizing i with
  | nil => rfl
  | cons x t ih =>
    simp only [nullFreeL, Bool.and_eq_true] at hl
    cases i with
    | zero => simpa using hl.1
    | succ j => simpa using ih j hl.2

theorem getOwnD_nullFree (v : Value) (k : Key) (h : nullFreeB v = true) :
    nullFreeB (getOwnD v k) = true := by
  cases v with
  | folder es =>
    simp only [nullFreeB] at h
    simp only [getOwnD]
    cases hl : lookupF es k with
    | none => rfl
    | some w => simpa using lookupF_nullFree es k w h hl
  | list xs =>
    simp only [nullFreeB] at h
    simp only [getOwnD]
    cases numIdx k with
    | none => rfl
    | some i => simpa using getD_nullFree xs i h
  | binary s =>
    simp only [getOwnD]
    cases numIdx k with
    | none => rfl
    | some i =>
      by_cases hi : i < s.length
      · simp [hi, nullFreeB]
      · simp [hi, nullFreeB]
  | undefV => rfl
  | vnull => simp [nullFreeB] at h
  | bool b => rfl
  | scalar s => rfl
  | func fid => rfl

theorem getProp_ok (g : Value) (k : Key) (h1 : g ≠ .vnull) (h2 : g ≠ .undefV) :
    getProp g k = .ok (getOwnD g k) := by
  have hg : isNullishV g = false := by
    cases g with
    | vnull => exact absurd rfl h1
    | undefV => exact absurd rfl h2
    | bool b => rfl
    | scalar s => rfl
    | binary s => rfl
    | list xs => rfl
    | folder es => rfl
    | func fid => rfl
  simp [getProp, hg]

theorem item_str_red (n : Node) (s : String) (fm : Bool) :
    Data.item n (.str s) fm = itemCore n (.str s) fm := by
  unfold Data.item
  rw [if_neg]
  simp

theorem itemCore_str_total (n : Node) (s : String) (fm : Bool)
    (hn : nullFreeB n.value = true)
    (hg1 : n.cfg ≠ .vnull) (hg2 : n.cfg ≠ .undefV) (hgf : nullFreeB n.cfg = true) :
    ∃ m, itemCore n (.str s) fm = .ok (some m) ∧
      nullFreeB m.value = true ∧ m.cfg = n.cfg := by
  unfold itemCore
  rw [if_neg (show ¬(Key.str s) = Key.parent by simp)]
  have hnn : ¬ isNullV n.value = true := by
    cases hv : n.value <;> simp [isNullV]
    rw [hv] at hn
    simp [nullFreeB] at hn
  rw [if_neg hnn]
  by_cases hcond : (!typeofObject n.value || (!fm && nonFolderCtor n.value)) = true
  · rw [if_pos hcond]
    exact ⟨_, rfl, hn, rfl⟩
  · rw [if_neg hcond]
    by_cases hip : hasProp n.value (.str s) = true
    · rw [if_pos hip]
      exact ⟨_, rfl, getOwnD_nullFree _ _ hn, rfl⟩
    · rw [if_neg hip]
      by_cases hnu : isNullishV (getOwnD n.value Key.index) = true
      · rw [if_pos hnu, getProp_ok n.cfg Key.global hg1 hg2]
        exact ⟨_, rfl, getOwnD_nullFree _ _ hgf, rfl⟩
      · rw [if_neg hnu]
        exact ⟨_, rfl, getOwnD_nullFree _ _ hn, rfl⟩

theorem get_str_total (g : Value) (fm : Bool) (hg : nullFreeB g = true)
    (hgu : g ≠ .undefV) :
    ∀ (p : List Key) (n : Node), (∀ k ∈ p, ∃ s, k = Key.str s) →
      nullFreeB n.value = true → n.cfg = g →
      ∃ m, Data.get n p fm = .ok (some m) ∧ nullFreeB m.value = true ∧ m.cfg = g := by
  have hgn : g ≠ .vnull := by
    intro e
    rw [e] at hg
    simp [nullFreeB] at hg
  intro p
  induction p with
  | nil =>
    intro n _ hn hc
    exact ⟨n, rfl, hn, hc⟩
  | cons k t ih =>
    intro n hp hn hc
    obtain ⟨s, hs⟩ := hp k (by simp)
    subst hs
    obtain ⟨m1, hm1, hm1n, hm1c⟩ :=
      itemCore_str_total n s fm hn (hc ▸ hgn) (hc ▸ hgu) (hc ▸ hg)
    have hstep : Data.get n (Key.str s :: t) fm = Data.get m1 t fm := by
      have h1 : stepAcc (.ok (some n)) (.str s) fm = .ok (some m1) := by
        show Data.item n (.str s) fm = .ok (some m1)
        rw [item_str_red]
        exact hm1
      show reduceSteps (stepAcc (.ok (some n)) (.str s) fm) t fm = Data.get m1 t fm
      rw [h1]
      rfl
    rw [hstep]
    exact ih m1 (fun k2 hk2 => hp k2 (by simp [hk2])) hm1n (hm1c.trans hc)

theorem itemCore_folder_fallback (n : Node) (es : List (Key × Value)) (k : Key)
    (fm : Bool) (hk : k ≠ Key.parent) (hv : n.value = .folder es)
    (hl : lookupF es k = none) (h1 : n.cfg ≠ .vnull) (h2 : n.cfg ≠ .undefV) :
    itemCore n k fm =
      .ok (some (.mk (fbVal es n.cfg) n.cfg (some n) (some [k]) (some k))) := by
  unfold itemCore
  rw [if_neg hk, hv]
  rw [if_neg (show ¬ isNullV (Value.folder es) = true by simp [isNullV])]
  rw [if_neg (show ¬ (!typeofObject (Value.folder es) ||
      (!fm && nonFolderCtor (Value.folder es))) = true by
    simp [typeofObject, nonFolderCtor])]
  rw [if_neg (show ¬ hasProp (Value.folder es) k = true by simp [hasProp, hl])]
  unfold fbVal
  by_cases hnu : isNullishV (getOwnD (Value.folder es) Key.index) = true
  · rw [if_pos hnu, if_pos hnu, getProp_ok n.cfg Key.global h1 h2]
  · rw [if_neg hnu, if_neg hnu]

/-- C1, counterexample: on the graph `{ a: null }` the two-key string path
a/b throws a TypeError — the second step evaluates `constructor` (or `in`)
on the null value reached by the first step — so resolution is not
exception-free on every graph. -/
theorem c1_counterexample :
    Data.get (rootNode gNull) [.str "a", .str "b"] false = .thrown ∧
    (Res.thrown : Res (Option Node)) ≠ .ok none :=
  ⟨rfl, fun h => Res.noConfusion h⟩

/-- C1 (amended): on every graph that contains no `null` value (and whose
root is defined), resolution of any path of ordinary string keys never
throws — each step yields a node, through the INDEX → GLOBAL → missing
chain; and on a folder-valued node with a defined configuration, a step
with an absent string key produces the node whose value is the INDEX entry
when that entry is present and not nullish, and otherwise the root GLOBAL
property (which is `undefined` — a missing node — when no GLOBAL entry
exists), with owner the stepped-from node, the given key, and leftover path
`[key]`.  With a `null` in the graph a step from it throws, as the
counterexample shows. -/
theorem c1_resolution_safety :
    (∀ (g : Value) (p : List Key) (fm : Bool), nullFreeB g = true →
       g ≠ .undefV → (∀ k ∈ p, ∃ s, k = Key.str s) →
       ∃ m, Data.get (rootNode g) p fm = .ok (some m)) ∧
    (∀ (n : Node) (es : List (Key × Value)) (s : String) (fm : Bool),
       n.value = .folder es → n.cfg ≠ .vnull → n.cfg ≠ .undefV →
       lookupF es (.str s) = none →
       Data.item n (.str s) fm =
         .ok (some (.mk (fbVal es n.cfg) n.cfg (some n)
           (some [.str s]) (some (.str s))))) := by
  constructor
  · intro g p fm hg hgu hp
    obtain ⟨m, hm, _, _⟩ := get_str_total g fm hg hgu p (rootNode g) hp hg rfl
    exact ⟨m, hm⟩
  · intro n es s fm hv h1 h2 hl
    rw [item_str_red]
    exact itemCore_folder_fallback n es (.str s) fm (by simp) hv hl h1 h2

/-- C1, witness: both parts evaluated on the concrete graph `gBin`: the
string path b/z resolves without exception, and the absent key "z" on the
root folder (no INDEX, no GLOBAL) produces the missing node with value
`undefined` and leftover path ["z"]. -/
theorem c1_witness :
    (∃ m, Data.get (rootNode gBin) [.str "b", .str "z"] false = .ok (some m)) ∧
    Data.item (rootNode gBin) (.str "z") false =
      .ok (some (.mk (fbVal [(.str "b", .binary "hi")] gBin) gBin
        (some (rootNode gBin)) (some [.str "z"]) (some (.str "z")))) :=
  ⟨c1_resolution_safety.1 gBin [.str "b", .str "z"] false rfl (by simp [gBin])
      (by
        intro k hk
        simp only [List.mem_cons, List.mem_singleton] at hk
        rcases hk with h | h | h
        · exact ⟨"b", h⟩
        · exact ⟨"z", h⟩
        · cases h),
   c1_resolution_safety.2 (rootNode gBin) [(.str "b", .binary "hi")] "z" false
     rfl (by simp [gBin, rootNode]) (by simp [gBin, rootNode]) rfl⟩

theorem readParts_head_diverge (env : HEnv) (fuel : Nat) (n : Node) (x : Value)
    (t : List Value) (i : Nat) (h : readF env fuel n x (some i) = .diverge) :
    readParts env fuel n (x :: t) i = .diverge := by
  simp only [readParts, h]

theorem item_index_nonFolder (n : Node) (hv : n.value = c5List) :
    Data.item n Key.index false =
      .ok (some (.mk n.value n.cfg n.parent
        (some ((n.path.getD []) ++ [Key.index])) (some Key.index))) := by
  unfold Data.item itemCore
  rw [if_neg (show ¬(Key.index = Key.global ∧ n.isRootData = false) by simp)]
  rw [if_neg (show ¬Key.index = Key.parent by simp)]
  rw [if_neg (show ¬ isNullV n.value = true by rw [hv]; simp [c5List, isNullV])]
  rw [if_pos (show (!typeofObject n.value || (!false && nonFolderCtor n.value)) = true by
    rw [hv]; simp [c5List, typeofObject, nonFolderCtor])]

theorem c5_aux (env : HEnv) : ∀ (fuel : Nat) (n : Node), n.value = c5List →
    readF env fuel n c5List none = .diverge ∧
    readF env fuel n c5Folder (some 0) = .diverge := by
  intro fuel
  induction fuel with
  | zero =>
    intro n hv
    constructor
    · rw [readF.eq_def]
    · rw [readF.eq_def]
  | succ f ih =>
    intro n hv
    have hB : readF env (f + 1) n c5Folder (some 0) = .diverge := by
      rw [readF.eq_def]
      simp only [c5Folder]
      rw [item_index_nonFolder n hv]
      show readF env f (Node.mk n.value n.cfg n.parent
        (some ((n.path.getD []) ++ [Key.index])) (some Key.index))
        (Node.mk n.value n.cfg n.parent
          (some ((n.path.getD []) ++ [Key.index])) (some Key.index)).value none = .diverge
      rw [Node.value_mk, hv]
      exact (ih (Node.mk c5List n.cfg n.parent
        (some ((n.path.getD []) ++ [Key.index])) (some Key.index)) rfl).1
    refine ⟨?_, hB⟩
    have hp : readParts env f n [c5Folder] 0 = .diverge :=
      readParts_head_diverge env f n c5Folder [] 0 (ih n hv).2
    rw [readF.eq_def]
    simp only [c5List]
    rw [hp]

/-- C5: on the failing input — a node whose value is the array
`[ { x: "hi" } ]`, a plain folder at position 0 — `read()` never returns,
for any amount of fuel.  The element read is invoked as `read(element, 0)`;
the code's guard `k ?` treats the position 0 as absent (its own comment
says "If defined"), so instead of re-resolving the folder as the entry at
index 0 it takes the `item(index)` branch, which leaves the array value
unchanged and recurses forever.  The claim (and the comment) prescribe the
index-0 re-resolution; the code diverges instead. -/
theorem c5_zero_index_folder_diverges :
    ∀ (env : HEnv) (fuel : Nat),
      readF env fuel (rootNode c5List) c5List none = .diverge :=
  fun env fuel => (c5_aux env fuel (rootNode c5List) rfl).1

theorem staticHandler_of_error (w : FsWorld) (env : HEnv) (fuel : Nat)
    (fol : Bool) (idxName ext temp : String) (node : Node) (mode : String)
    (args : List Key) (data : Option Value)
    (h : staticTry w fol idxName ext temp mode args data = .error ()) :
    staticHandler w env fuel fol idxName ext temp node mode args data =
      globalRead env fuel node := by
  unfold staticHandler
  rw [h]

theorem staticTry_base_error (w : FsWorld) (fol : Bool)
    (idxName ext temp mode : String) (args : List Key) (data : Option Value)
    (h : staticBase fol temp args = .error ()) :
    staticTry w fol idxName ext temp mode args data = .error () := by
  unfold staticTry
  rw [h]

theorem staticTry_stat_error (w : FsWorld) (fol : Bool)
    (idxName ext temp mode f0 : String) (args : List Key) (data : Option Value)
    (hb : staticBase fol temp args = .ok f0)
    (hs : staticStat w mode idxName f0 = .error ()) :
    staticTry w fol idxName ext temp mode args data = .error () := by
  unfold staticTry
  rw [hb]
  show (match staticStat w mode idxName f0 with
        | .error e => Except.error e
        | .ok f1 => staticDispatch w mode (f1 ++ ext) data) = .error ()
  rw [hs]

theorem staticTry_to_dispatch (w : FsWorld) (fol : Bool)
    (idxName ext temp mode f0 f1 : String) (args : List Key) (data : Option Value)
    (hb : staticBase fol temp args = .ok f0)
    (hs : staticStat w mode idxName f0 = .ok f1) :
    staticTry w fol idxName ext temp mode args data =
      staticDispatch w mode (f1 ++ ext) data := by
  unfold staticTry
  rw [hb]
  show (match staticStat w mode idxName f0 with
        | .error e => Except.error e
        | .ok f1 => staticDispatch w mode (f1 ++ ext) data) = _
  rw [hs]

theorem staticStat_lstat_error (w : FsWorld) (mode idxName f0 : String)
    (h1 : mode ≠ "list") (h2 : mode ≠ "delete")
    (hl : w.lstatIsDir f0 = .error ()) :
    staticStat w mode idxName f0 = .error () := by
  unfold staticStat
  rw [if_neg (by simp [h1, h2])]
  rw [hl]

theorem staticStat_skip (w : FsWorld) (mode idxName f0 : String)
    (h : mode = "list" ∨ mode = "delete") :
    staticStat w mode idxName f0 = .ok f0 := by
  unfold staticStat
  rw [if_pos h]

/-- C8: for every handler built by `Config.static` (and so also by
`Config.reference`, which is `static` with `isFolder = false`), a failure
of the underlying real-filesystem step is not propagated: the handler
returns the result of `read()` on the node's GLOBAL item instead.  The
conjuncts cover a failing path build, a failing stat (any mode that stats),
and a failing primitive in each of the five modes. -/
theorem c8_static_degrades :
    ∀ (w : FsWorld) (env : HEnv) (fuel : Nat) (fol : Bool)
      (idxName ext temp : String) (node : Node) (args : List Key)
      (data : Option Value),
      (∀ mode, staticBase fol temp args = .error () →
        staticHandler w env fuel fol idxName ext temp node mode args data =
          globalRead env fuel node) ∧
      (∀ mode f0, staticBase fol temp args = .ok f0 →
        mode ≠ "list" → mode ≠ "delete" → w.lstatIsDir f0 = .error () →
        staticHandler w env fuel fol idxName ext temp node mode args data =
          globalRead env fuel node) ∧
      (∀ f0, staticBase fol temp args = .ok f0 →
        w.readdir (f0 ++ ext) = .error () →
        staticHandler w env fuel fol idxName ext temp node "list" args data =
          globalRead env fuel node) ∧
      (∀ f0 f1, staticBase fol temp args = .ok f0 →
        staticStat w "read" idxName f0 = .ok f1 →
        w.readFile (f1 ++ ext) = .error () →
        staticHandler w env fuel fol idxName ext temp node "read" args data =
          globalRead env fuel node) ∧
      (∀ f0 f1, staticBase fol temp args = .ok f0 →
        staticStat w "append" idxName f0 = .ok f1 →
        w.appendFile (f1 ++ ext) data = .error () →
        staticHandler w env fuel fol idxName ext temp node "append" args data =
          globalRead env fuel node) ∧
      (∀ f0 f1, staticBase fol temp args = .ok f0 →
        staticStat w "write" idxName f0 = .ok f1 →
        w.writeFile (f1 ++ ext) data = .error () →
        staticHandler w env fuel fol idxName ext temp node "write" args data =
          globalRead env fuel node) ∧
      (∀ f0, staticBase fol temp args = .ok f0 →
        truthy (data.getD .undefV) = true → w.unlink (f0 ++ ext) = .error () →
        staticHandler w env fuel fol idxName ext temp node "delete" args data =
          globalRead env fuel node) := by
  intro w env fuel fol idxName ext temp node args data
  refine ⟨?_, ?_, ?_, ?_, ?_, ?_, ?_⟩
  · intro mode hb
    exact staticHandler_of_error w env fuel fol idxName ext temp node mode
      args data (staticTry_base_error w fol idxName ext temp mode args data hb)
  · intro mode f0 hb h1 h2 hl
    exact staticHandler_of_error w env fuel fol idxName ext temp node mode
      args data (staticTry_stat_error w fol idxName ext temp mode f0 args data
        hb (staticStat_lstat_error w mode idxName f0 h1 h2 hl))
  · intro f0 hb hr
    refine staticHandler_of_error w env fuel fol idxName ext temp node "list"
      args data ?_
    rw [staticTry_to_dispatch w fol idxName ext temp "list" f0 f0 args data hb
      (staticStat_skip w "list" idxName f0 (Or.inl rfl))]
    unfold staticDispatch
    rw [if_pos rfl, hr]
    rfl
  · intro f0 f1 hb hs hr
    refine staticHandler_of_error w env fuel fol idxName ext temp node "read"
      args data ?_
    rw [staticTry_to_dispatch w fol idxName ext temp "read" f0 f1 args data hb hs]
    unfold staticDispatch
    rw [if_neg (by decide), if_neg (by decide), if_neg (by decide),
      if_neg (by decide), hr]
    rfl
  · intro f0 f1 hb hs hr
    refine staticHandler_of_error w env fuel fol idxName ext temp node "append"
      args data ?_
    rw [staticTry_to_dispatch w fol idxName ext temp "append" f0 f1 args data hb hs]
    unfold staticDispatch
    rw [if_neg (by decide), if_pos rfl, hr]
    rfl
  · intro f0 f1 hb hs hr
    refine staticHandler_of_error w env fuel fol idxName ext temp node "write"
      args data ?_
    rw [staticTry_to_dispatch w fol idxName ext temp "write" f0 f1 args data hb hs]
    unfold staticDispatch
    rw [if_neg (by decide), if_neg (by decide), if_pos rfl, hr]
    rfl
  · intro f0 hb htr hu
    refine staticHandler_of_error w env fuel fol idxName ext temp node "delete"
      args data ?_
    rw [staticTry_to_dispatch w fol idxName ext temp "delete" f0 f0 args data hb
      (staticStat_skip w "delete" idxName f0 (Or.inr rfl))]
    unfold staticDispatch
    rw [if_neg (by decide), if_neg (by decide), if_neg (by decide),
      if_pos rfl, if_pos htr, hu]
    rfl

/-- C8, witness: the degradation applied with a concrete all-failing
filesystem, in read mode on the root of `gGlob`. -/
theorem c8_witness :
    staticHandler wFail envU 1 true "index" "" "t" (rootNode gGlob)
      "read" [] none = globalRead envU 1 (rootNode gGlob) :=
  (c8_static_degrades wFail envU 1 true "index" "" "t" (rootNode gGlob)
      [] none).2.1 "read" "t" rfl (by decide) (by decide) rfl

end Cfs
